import Mathlib

/-!
Verification of the voice-bridge core of the `fluent` telephony gateway.

The development shallowly embeds the code of
`gateway/voice/transcoder.py`, `gateway/voice/transcript.py`,
`gateway/utils/phone.py` and `gateway/voice/bridge.py`.

Conventions of the embedding:
* bytes are natural numbers (the byte range is carried as a hypothesis
  `b < 256` where it matters);
* `float32` PCM samples are modelled as exact rationals;
* the external soxr resampler, libopus encoder/decoder and UTF-8 decoding
  are opaque parameters (`BridgeExternals`), since they are foreign
  libraries the bridge only calls;
* each of the two asynchronous bridge pumps is modelled as a sequential
  fold over the list of WebSocket messages it receives, returning the
  final bridge state, the list of messages it sent, and how it exited.
  An uncaught Python exception is modelled as an early exit.
-/

set_option maxRecDepth 16384

/-! ## µ-law codec (gateway/voice/transcoder.py) -/

/-- Sample value of the 256-entry µ-law decode table
(`_MULAW_DECODE_TABLE`), before division by 32768: invert the byte,
extract sign, exponent, mantissa, then
`((mantissa <<< 3) + 0x84) <<< exponent - 0x84`, negated when the sign
bit is set. -/
def mulawDecodeSample (b : Nat) : Int :=
  let v : Nat := b ^^^ 0xFF
  let sign := v &&& 0x80
  let exponent := (v >>> 4) &&& 0x07
  let mantissa := v &&& 0x0F
  let sample : Int := ((((mantissa <<< 3) + 0x84) <<< exponent : Nat) : Int) - 0x84
  if sign ≠ 0 then -sample else sample

/-- `mulaw_to_pcm`: decode µ-law bytes to float32 PCM in [-1, 1]
(table lookup, then the table entry is `sample / 32768`). -/
def mulaw_to_pcm (data : List Nat) : List ℚ :=
  data.map (fun b => (mulawDecodeSample b : ℚ) / 32768)

/-- The exponent search loop of `_encode_mulaw_sample`: highest set bit
among positions 14..8 picks exponent 7..1, otherwise 0. -/
def findExponent (sample : Nat) : Nat :=
  if sample &&& 0x4000 ≠ 0 then 7
  else if sample &&& 0x2000 ≠ 0 then 6
  else if sample &&& 0x1000 ≠ 0 then 5
  else if sample &&& 0x800 ≠ 0 then 4
  else if sample &&& 0x400 ≠ 0 then 3
  else if sample &&& 0x200 ≠ 0 then 2
  else if sample &&& 0x100 ≠ 0 then 1
  else 0

/-- `_encode_mulaw_sample`: encode one signed 16-bit PCM sample to a
µ-law byte (sign, clip to 32635, bias 0x84, exponent/mantissa, invert). -/
def encodeMulawSample (s : Int) : Nat :=
  let sign : Nat := if s < 0 then 0x80 else 0
  let mag : Int := if s < 0 then -s else s
  let magc : Int := if mag > 32635 then 32635 else mag
  let biased : Nat := (magc + 0x84).toNat
  let exponent := findExponent biased
  let mantissa := (biased >>> (exponent + 3)) &&& 0x0F
  (sign ||| (exponent <<< 4) ||| mantissa) ^^^ 0xFF

/-- Truncation toward zero, the semantics of numpy `astype(np.int16)`
on in-range values. -/
def truncQ (q : ℚ) : Int := if 0 ≤ q then ⌊q⌋ else ⌈q⌉

/-- One sample of `pcm_to_mulaw`: clip the float to [-1, 1], scale by
32767, cast to int16, encode. -/
def pcmSampleToMulaw (q : ℚ) : Nat :=
  encodeMulawSample (truncQ (max (-1) (min 1 q) * 32767))

/-- `pcm_to_mulaw`: encode float32 PCM [-1, 1] to µ-law bytes. -/
def pcm_to_mulaw (pcm : List ℚ) : List Nat :=
  pcm.map pcmSampleToMulaw

/-- `resample`: identical rates return the input unchanged, otherwise the
external soxr resampler (here an opaque parameter) is called. -/
def resample (soxrFn : List ℚ → Nat → Nat → List ℚ)
    (pcm : List ℚ) (from_rate to_rate : Nat) : List ℚ :=
  if from_rate = to_rate then pcm else soxrFn pcm from_rate to_rate

def TWILIO_RATE : Nat := 8000

def PERSONAPLEX_RATE : Nat := 24000

/-- `mulaw_8k_to_pcm_24k`: full inbound pipeline. -/
def mulaw_8k_to_pcm_24k (soxrFn : List ℚ → Nat → Nat → List ℚ)
    (data : List Nat) : List ℚ :=
  resample soxrFn (mulaw_to_pcm data) TWILIO_RATE PERSONAPLEX_RATE

/-- `pcm_24k_to_mulaw_8k`: full outbound pipeline. -/
def pcm_24k_to_mulaw_8k (soxrFn : List ℚ → Nat → Nat → List ℚ)
    (pcm : List ℚ) : List Nat :=
  pcm_to_mulaw (resample soxrFn pcm PERSONAPLEX_RATE TWILIO_RATE)

/-- The G.711 decode formula exactly as the specification words it
(refinement reference for the claim about `mulaw_to_pcm`): invert the
byte, extract sign bit (bit 7), exponent (bits 6-4), mantissa
(bits 3-0); compute `((mantissa <<< 3) + 0x84) <<< exponent - 0x84`;
apply sign. -/
def g711DecodeSpec (b : Nat) : Int :=
  let inverted := b ^^^ 0xFF
  let sign := (inverted >>> 7) &&& 1
  let exponent := (inverted >>> 4) &&& 0x07
  let mantissa := inverted &&& 0x0F
  let magnitude : Int :=
    ((((mantissa <<< 3) + 0x84) <<< exponent : Nat) : Int) - 0x84
  if sign = 1 then -magnitude else magnitude

/-! ## Strings: Python `str.strip` over char lists -/

/-- Strings are modelled as lists of characters. -/
abbrev Str := List Char

/-- Python `str.strip()`: drop whitespace from both ends. -/
def trimStr (s : Str) : Str :=
  ((s.dropWhile Char.isWhitespace).reverse.dropWhile Char.isWhitespace).reverse

/-! ## E.164 normalization (gateway/utils/phone.py) -/

/-- The character class kept by `re.sub(..)` in `normalize_e164`:
digits and the plus sign. -/
def digitOrPlus (c : Char) : Bool := c.isDigit || c == '+'

/-- `normalize_e164`: strip the input, drop non-digit non-plus
characters, and ensure a leading plus (US country code assumed for
10-digit numbers). -/
def normalize_e164 (phone : Str) : Str :=
  let digits := (trimStr phone).filter digitOrPlus
  if digits.head? = some '+' then digits
  else if digits.length = 10 then '+' :: '1' :: digits
  else if digits.length = 11 ∧ digits.head? = some '1' then '+' :: digits
  else '+' :: digits

/-! ## Transcript capture (gateway/voice/transcript.py) -/

inductive Role where
  | user
  | assistant
deriving DecidableEq, Repr

structure Turn where
  role : Role
  content : Str
deriving DecidableEq, Repr

/-- State of `TranscriptCapture`. -/
structure TranscriptCapture where
  tokens : List Str
  assistant_text : List Str
  turns : List Turn
deriving DecidableEq, Repr

def TranscriptCapture.init : TranscriptCapture := ⟨[], [], []⟩

/-- `add_token`: append a text token to both accumulators. -/
def add_token (st : TranscriptCapture) (text : Str) : TranscriptCapture :=
  { st with tokens := st.tokens ++ [text],
            assistant_text := st.assistant_text ++ [text] }

/-- `end_turn`: close the current assistant turn if its trimmed
concatenation is non-empty, and clear the accumulator. -/
def end_turn (st : TranscriptCapture) : TranscriptCapture :=
  if st.assistant_text ≠ [] then
    let full := trimStr st.assistant_text.flatten
    if full ≠ [] then
      { st with turns := st.turns ++ [⟨Role.assistant, full⟩], assistant_text := [] }
    else
      { st with assistant_text := [] }
  else st

/-- `add_user_note`: record a trimmed non-empty user-side note. -/
def add_user_note (st : TranscriptCapture) (note : Str) : TranscriptCapture :=
  if trimStr note ≠ [] then
    { st with turns := st.turns ++ [⟨Role.user, trimStr note⟩] }
  else st

/-- `get_transcript`: flush the open turn and return the turns. -/
def get_transcript (st : TranscriptCapture) : List Turn :=
  (end_turn st).turns

/-- The operations a caller can perform on a `TranscriptCapture` during
a call. -/
inductive TCOp where
  | addToken (s : Str)
  | endTurn
  | addUserNote (s : Str)

def applyOp (st : TranscriptCapture) : TCOp → TranscriptCapture
  | .addToken s => add_token st s
  | .endTurn => end_turn st
  | .addUserNote s => add_user_note st s

/-- Run a sequence of transcript operations from the initial state. -/
def runOps (ops : List TCOp) : TranscriptCapture :=
  ops.foldl applyOp TranscriptCapture.init

/-! ## Voice bridge (gateway/voice/bridge.py) -/

def OPUS_FRAME_SAMPLES : Nat := PERSONAPLEX_RATE * 20 / 1000

/-- The external collaborators of the bridge: soxr resampling, the
libopus encoder and decoder reached through ctypes, and UTF-8 decoding
with replacement. -/
structure BridgeExternals where
  soxrFn : List ℚ → Nat → Nat → List ℚ
  opusEncode : List ℚ → Option (List Nat)
  opusDecode : List Nat → Option (List ℚ)
  utf8Decode : List Nat → Str

/-- The mutable per-call state the two pumps touch. -/
structure BridgeState where
  stream_sid : Option Str
  pcm_buffer : List ℚ
  transcript : TranscriptCapture

/-- A parsed carrier (Twilio) JSON envelope; `media` carries the
base64-decoded µ-law payload. -/
inductive TwilioEnvelope where
  | media (payload : List Nat)
  | start (streamSid : Option Str)
  | stop
  | other

/-- A carrier WebSocket message as the carrier-to-AI pump receives it.
A text frame carries `some envelope` when `json.loads` succeeds and
`none` when it raises. -/
inductive TwilioMsg where
  | text (env : Option TwilioEnvelope)
  | close
  | otherType

/-- An AI (PersonaPlex) WebSocket message as the AI-to-carrier pump
receives it. -/
inductive PPMsg where
  | binary (data : List Nat)
  | close
  | otherType

/-- An outbound carrier media envelope
(`event: media, streamSid, media.payload`). -/
structure MediaOut where
  streamSid : Option Str
  payload : List Nat

/-- How a pump loop ended. -/
inductive PumpExit where
  | drained
  | jsonError
  | stopped
  | closed
deriving DecidableEq, Repr

/-- The frame-buffer drain loop of `_send_pcm_to_personaplex`: while at
least one whole 480-sample frame is buffered, pop it, Opus-encode it and
send `0x01`-prefixed bytes when encoding yields non-empty data. Returns
the residual buffer and the binary messages sent to the AI. -/
def drainLoop (enc : List ℚ → Option (List Nat)) (buf : List ℚ) :
    List ℚ × List (List Nat) :=
  if _h : OPUS_FRAME_SAMPLES ≤ buf.length then
    let r := drainLoop enc (buf.drop OPUS_FRAME_SAMPLES)
    match enc (buf.take OPUS_FRAME_SAMPLES) with
    | some bs => if bs = [] then r else (r.1, (1 :: bs) :: r.2)
    | none => r
  else (buf, [])
termination_by buf.length
decreasing_by
  simp only [List.length_drop]
  have : 0 < OPUS_FRAME_SAMPLES := by decide
  omega

/-- One send pass of `_send_pcm_to_personaplex`: append the incoming PCM
to the residual buffer and drain whole frames. -/
def sendPass (enc : List ℚ → Option (List Nat)) (buf chunk : List ℚ) :
    List ℚ × List (List Nat) :=
  drainLoop enc (buf ++ chunk)

structure TwilioPumpResult where
  state : BridgeState
  sentToAI : List (List Nat)
  exit : PumpExit

/-- `_twilio_to_personaplex`: the carrier-to-AI pump, folded over the
messages it receives. A text frame whose JSON parse fails raises out of
the loop (exit `jsonError`); `start` records the stream sid; `media` is
transcoded and drained to the AI; `stop` and close frames end the pump. -/
def twilioPump (ext : BridgeExternals) (st : BridgeState) :
    List TwilioMsg → TwilioPumpResult
  | [] => ⟨st, [], .drained⟩
  | .close :: _ => ⟨st, [], .closed⟩
  | .otherType :: rest => twilioPump ext st rest
  | .text none :: _ => ⟨st, [], .jsonError⟩
  | .text (some env) :: rest =>
    match env with
    | .media payload =>
      let pcm_24k := mulaw_8k_to_pcm_24k ext.soxrFn payload
      let pass := sendPass ext.opusEncode st.pcm_buffer pcm_24k
      let r := twilioPump ext { st with pcm_buffer := pass.1 } rest
      ⟨r.state, pass.2 ++ r.sentToAI, r.exit⟩
    | .start sid => twilioPump ext { st with stream_sid := sid } rest
    | .stop => ⟨st, [], .stopped⟩
    | .other => twilioPump ext st rest

structure PPPumpResult where
  state : BridgeState
  sentToTwilio : List MediaOut
  exit : PumpExit

/-- `_personaplex_to_twilio`: the AI-to-carrier pump. Binary frames are
dispatched on their first byte: `0x01` audio is decoded, resampled,
µ-law encoded and sent to the carrier as a media envelope carrying the
current stream sid; `0x02` text feeds the transcript; everything else is
ignored. -/
def ppPump (ext : BridgeExternals) (st : BridgeState) :
    List PPMsg → PPPumpResult
  | [] => ⟨st, [], .drained⟩
  | .close :: _ => ⟨st, [], .closed⟩
  | .otherType :: rest => ppPump ext st rest
  | .binary [] :: rest => ppPump ext st rest
  | .binary (kind :: payload) :: rest =>
    if kind = 1 then
      match ext.opusDecode payload with
      | some pcm_24k =>
        let out : MediaOut := ⟨st.stream_sid, pcm_24k_to_mulaw_8k ext.soxrFn pcm_24k⟩
        let r := ppPump ext st rest
        ⟨r.state, out :: r.sentToTwilio, r.exit⟩
      | none => ppPump ext st rest
    else if kind = 2 then
      ppPump ext { st with transcript := add_token st.transcript (ext.utf8Decode payload) } rest
    else
      ppPump ext st rest

/-- The first message the session reads from the AI WebSocket in
`VoiceBridge.start`, reduced to what the handshake check inspects. -/
inductive WSFirstMsg where
  | binary (data : List Nat)
  | nonbinary

/-- Outcome of the handshake check in `VoiceBridge.start`: whether the
two bridge pumps get spawned afterwards, and whether the
`unexpected_first_message` warning was logged. An empty binary frame
makes `data[0]` raise, aborting the session before the pumps. -/
structure HandshakeResult where
  pumpsSpawned : Bool
  warned : Bool
deriving DecidableEq, Repr

/-- The handshake branch of `VoiceBridge.start`, lines 118-128: a binary
first message proceeds to the pumps whatever its first byte (a non-zero
first byte only logs a warning); a non-binary first message cleans up
and returns before the pumps. -/
def handshakeCheck (msg : WSFirstMsg) : HandshakeResult :=
  match msg with
  | .binary data =>
    match data.head? with
    | some b => if b = 0 then ⟨true, false⟩ else ⟨true, true⟩
    | none => ⟨false, false⟩
  | .nonbinary => ⟨false, false⟩

/-- Recognizer for a carrier message that is a parsed `start` envelope. -/
def isStart : TwilioMsg → Bool
  | .text (some (.start _)) => true
  | _ => false

/-! ## Concrete instantiations used by counterexamples and witnesses -/

/-- A resampler that returns its input (a legitimate instantiation of
the external soxr call, used to build concrete calls). -/
def idSoxr : List ℚ → Nat → Nat → List ℚ := fun pcm _ _ => pcm

/-- Concrete externals: every Opus packet decodes to one zero sample and
every frame encodes to one zero byte. -/
def extZ : BridgeExternals :=
  ⟨idSoxr, fun _ => some [0], fun _ => some [0], fun _ => []⟩

/-- Initial bridge state of a call: no stream sid, empty buffer, fresh
transcript. -/
def stInit : BridgeState := ⟨none, [], TranscriptCapture.init⟩

/-! ## Helper lemmas -/

theorem drainLoop_residual_lt (enc : List ℚ → Option (List Nat)) :
    ∀ n (buf : List ℚ), buf.length ≤ n → (drainLoop enc buf).1.length < OPUS_FRAME_SAMPLES := by
  intro n
  induction n with
  | zero =>
    intro buf hb
    rw [drainLoop]
    have hlt : ¬ OPUS_FRAME_SAMPLES ≤ buf.length := by
      have : 0 < OPUS_FRAME_SAMPLES := by decide
      omega
    simp only [hlt, dite_false]
    have : 0 < OPUS_FRAME_SAMPLES := by decide
    omega
  | succ n ih =>
    intro buf hb
    rw [drainLoop]
    by_cases hge : OPUS_FRAME_SAMPLES ≤ buf.length
    · simp only [hge, dite_true]
      have hrec : (drainLoop enc (buf.drop OPUS_FRAME_SAMPLES)).1.length < OPUS_FRAME_SAMPLES := by
        apply ih
        simp only [List.length_drop]
        have : 0 < OPUS_FRAME_SAMPLES := by decide
        omega
      cases henc : enc (buf.take OPUS_FRAME_SAMPLES) with
      | none => simpa using hrec
      | some bs =>
        by_cases hbs : bs = []
        · simpa [hbs] using hrec
        · simpa [hbs] using hrec
    · simp only [hge, dite_false]
      omega

theorem ppPump_sid_invariant (ext : BridgeExternals) :
    ∀ (msgs : List PPMsg) (st : BridgeState),
      (ppPump ext st msgs).state.stream_sid = st.stream_sid ∧
      ∀ out ∈ (ppPump ext st msgs).sentToTwilio, out.streamSid = st.stream_sid := by
  intro msgs
  induction msgs with
  | nil => intro st; exact ⟨rfl, by intro out h; simp [ppPump] at h⟩
  | cons m rest ih =>
    intro st
    cases m with
    | close => exact ⟨rfl, by intro out h; simp [ppPump] at h⟩
    | otherType => simpa [ppPump] using ih st
    | binary data =>
      cases data with
      | nil => simpa [ppPump] using ih st
      | cons kind payload =>
        by_cases h1 : kind = 1
        · cases hdec : ext.opusDecode payload with
          | some pcm =>
            have hih := ih st
            constructor
            · simpa [ppPump, h1, hdec] using hih.1
            · intro out hout
              simp only [ppPump, h1, if_true, hdec] at hout
              rcases List.mem_cons.mp hout with hout | hout
              · subst hout; rfl
              · exact hih.2 out hout
          | none => simpa [ppPump, h1, hdec] using ih st
        · by_cases h2 : kind = 2
          · have hih := ih { st with transcript := add_token st.transcript (ext.utf8Decode payload) }
            exact ⟨by simpa [ppPump, h1, h2] using hih.1,
                   by intro out hout
                      simp only [ppPump, h1, h2, if_false, if_true] at hout
                      exact hih.2 out hout⟩
          · simpa [ppPump, h1, h2] using ih st

theorem twilioPump_sid_no_start (ext : BridgeExternals) :
    ∀ (msgs : List TwilioMsg) (st : BridgeState),
      (∀ m ∈ msgs, isStart m = false) →
      (twilioPump ext st msgs).state.stream_sid = st.stream_sid := by
  intro msgs
  induction msgs with
  | nil => intro st _; rfl
  | cons m rest ih =>
    intro st hm
    have hrest : ∀ m ∈ rest, isStart m = false :=
      fun x hx => hm x (List.mem_cons_of_mem _ hx)
    cases m with
    | close => rfl
    | otherType => simpa [twilioPump] using ih st hrest
    | text env =>
      cases env with
      | none => rfl
      | some e =>
        cases e with
        | media payload => simpa [twilioPump] using ih _ hrest
        | start sid => exact absurd (hm _ (List.mem_cons_self _ _)) (by simp [isStart])
        | stop => rfl
        | other => simpa [twilioPump] using ih st hrest

theorem twilioPump_sent_independent_of_sid (ext : BridgeExternals) :
    ∀ (msgs : List TwilioMsg) (sid₁ sid₂ : Option Str) (buf : List ℚ)
      (tc : TranscriptCapture),
      (twilioPump ext ⟨sid₁, buf, tc⟩ msgs).sentToAI =
        (twilioPump ext ⟨sid₂, buf, tc⟩ msgs).sentToAI := by
  intro msgs
  induction msgs with
  | nil => intro sid₁ sid₂ buf tc; rfl
  | cons m rest ih =>
    intro sid₁ sid₂ buf tc
    cases m with
    | close => rfl
    | otherType => simpa [twilioPump] using ih sid₁ sid₂ buf tc
    | text env =>
      cases env with
      | none => rfl
      | some e =>
        cases e with
        | media payload =>
          simp only [twilioPump]
          rw [ih sid₁ sid₂ _ tc]
        | start sid => simp [twilioPump]
        | stop => rfl
        | other => simpa [twilioPump] using ih sid₁ sid₂ buf tc

theorem mulawDecodeSample_bounds :
    ∀ b : Nat, b < 256 →
      -32768 ≤ mulawDecodeSample b ∧ mulawDecodeSample b ≤ 32768 := by decide

theorem mulawDecodeSample_eq_spec :
    ∀ b : Nat, b < 256 → mulawDecodeSample b = g711DecodeSpec b := by decide

theorem roundtrip_int_bound :
    ∀ b : Nat, b < 256 →
      100 * (mulawDecodeSample (encodeMulawSample
          (Int.tdiv (mulawDecodeSample b * 32767) 32768)) - mulawDecodeSample b) ≤ 32768 ∧
      -32768 ≤ 100 * (mulawDecodeSample (encodeMulawSample
          (Int.tdiv (mulawDecodeSample b * 32767) 32768)) - mulawDecodeSample b) := by decide

theorem qdiv_bounds {s : Int} (h1 : -32768 ≤ s) (h2 : s ≤ 32768) :
    -1 ≤ (s : ℚ) / 32768 ∧ (s : ℚ) / 32768 ≤ 1 := by
  constructor
  · rw [le_div_iff₀ (by norm_num : (0 : ℚ) < 32768)]
    have : (-32768 : ℚ) ≤ (s : ℚ) := by exact_mod_cast h1
    linarith
  · rw [div_le_one (by norm_num : (0 : ℚ) < 32768)]
    exact_mod_cast h2

theorem truncQ_intCast_div (a : Int) :
    truncQ ((a : ℚ) / 32768) = Int.tdiv a 32768 := by
  have h32 : ((32768 : ℕ) : ℚ) = (32768 : ℚ) := by norm_num
  by_cases ha : 0 ≤ a
  · have hq : (0 : ℚ) ≤ (a : ℚ) / 32768 := by
      apply div_nonneg
      · exact_mod_cast ha
      · norm_num
    rw [truncQ, if_pos hq, ← h32, Rat.floor_intCast_div_natCast]
    exact (Int.tdiv_eq_ediv ha (by norm_num)).symm
  · have ha' : a < 0 := lt_of_not_ge ha
    have hq : ¬ (0 : ℚ) ≤ (a : ℚ) / 32768 := by
      rw [not_le]
      apply div_neg_of_neg_of_pos
      · exact_mod_cast ha'
      · norm_num
    rw [truncQ, if_neg hq]
    have hceil : ⌈(a : ℚ) / 32768⌉ = -⌊-((a : ℚ) / 32768)⌋ := by
      rw [← neg_neg ((a : ℚ) / 32768), Int.ceil_neg, neg_neg]
    rw [hceil]
    have hneg : -((a : ℚ) / 32768) = ((-a : ℤ) : ℚ) / 32768 := by push_cast; ring
    rw [hneg, ← h32, Rat.floor_intCast_div_natCast]
    have htd : Int.tdiv (-a) 32768 = (-a) / 32768 :=
      Int.tdiv_eq_ediv (by omega) (by norm_num)
    have hcast : ((32768 : ℕ) : ℤ) = (32768 : ℤ) := by norm_num
    rw [hcast, ← htd, Int.neg_tdiv, neg_neg]

theorem tol_lift {x : Int} (h1 : 100 * x ≤ 32768) (h2 : -32768 ≤ 100 * x) :
    |(x : ℚ) / 32768| ≤ 1 / 100 := by
  have h1q : (100 : ℚ) * (x : ℚ) ≤ 32768 := by exact_mod_cast h1
  have h2q : (-32768 : ℚ) ≤ 100 * (x : ℚ) := by exact_mod_cast h2
  rw [abs_le]
  constructor
  · rw [neg_le, ← neg_div]
    rw [div_le_div_iff₀ (by norm_num : (0 : ℚ) < 32768) (by norm_num : (0 : ℚ) < 100)]
    linarith
  · rw [div_le_div_iff₀ (by norm_num : (0 : ℚ) < 32768) (by norm_num : (0 : ℚ) < 100)]
    linarith

theorem pcmSample_decode (b : Nat) (hb : b < 256) :
    pcmSampleToMulaw ((mulawDecodeSample b : ℚ) / 32768) =
      encodeMulawSample (Int.tdiv (mulawDecodeSample b * 32767) 32768) := by
  have hbnd := mulawDecodeSample_bounds b hb
  have hq := qdiv_bounds hbnd.1 hbnd.2
  rw [pcmSampleToMulaw, min_eq_right hq.2, max_eq_right hq.1]
  have h3 : ((mulawDecodeSample b : ℚ) / 32768) * 32767 =
      ((mulawDecodeSample b * 32767 : ℤ) : ℚ) / 32768 := by push_cast; ring
  rw [h3, truncQ_intCast_div]

theorem dropWhile_eq_self_of_all {α : Type} (p : α → Bool) (l : List α)
    (h : ∀ c ∈ l, p c = false) : l.dropWhile p = l := by
  cases l with
  | nil => rfl
  | cons a t =>
    rw [List.dropWhile_cons, h a (List.mem_cons_self _ _)]
    simp

theorem head?_dropWhile_false {α : Type} (p : α → Bool) :
    ∀ (l : List α) (a : α), (l.dropWhile p).head? = some a → p a = false := by
  intro l
  induction l with
  | nil => intro a h; simp [List.dropWhile] at h
  | cons b t ih =>
    intro a h
    rw [List.dropWhile_cons] at h
    by_cases hb : p b
    · rw [if_pos hb] at h
      exact ih a h
    · rw [if_neg hb] at h
      simp only [List.head?_cons, Option.some.injEq] at h
      subst h
      exact Bool.eq_false_iff.mpr hb

theorem trimmed_fixed {α : Type} (p : α → Bool) (l : List α)
    (h1 : ∀ a, l.head? = some a → p a = false)
    (h2 : ∀ a, l.getLast? = some a → p a = false) :
    ((l.dropWhile p).reverse.dropWhile p).reverse = l := by
  have hd : l.dropWhile p = l := by
    cases l with
    | nil => rfl
    | cons a t =>
      rw [List.dropWhile_cons, h1 a rfl]
      simp
  rw [hd]
  have hd2 : l.reverse.dropWhile p = l.reverse := by
    cases hrev : l.reverse with
    | nil => rfl
    | cons a t =>
      have ha : l.getLast? = some a := by
        rw [← List.head?_reverse, hrev]
        rfl
      rw [List.dropWhile_cons, h2 a ha]
      simp
  rw [hd2, List.reverse_reverse]

theorem trimStr_head (l : Str) :
    ∀ a, (trimStr l).head? = some a → a.isWhitespace = false := by
  intro a h
  rw [trimStr, List.head?_reverse] at h
  have hdecomp :
      (l.dropWhile Char.isWhitespace).reverse.takeWhile Char.isWhitespace ++
        (l.dropWhile Char.isWhitespace).reverse.dropWhile Char.isWhitespace =
        (l.dropWhile Char.isWhitespace).reverse :=
    List.takeWhile_append_dropWhile _ _
  have hlast : (l.dropWhile Char.isWhitespace).reverse.getLast? = some a := by
    rw [← hdecomp, List.getLast?_append, h]
    rfl
  rw [List.getLast?_reverse] at hlast
  exact head?_dropWhile_false _ l a hlast

theorem trimStr_last (l : Str) :
    ∀ a, (trimStr l).getLast? = some a → a.isWhitespace = false := by
  intro a h
  rw [trimStr, List.getLast?_reverse] at h
  exact head?_dropWhile_false _ _ a h

theorem trimStr_trimStr (l : Str) : trimStr (trimStr l) = trimStr l :=
  trimmed_fixed Char.isWhitespace (trimStr l) (trimStr_head l) (trimStr_last l)

theorem trimStr_eq_self_of_all (l : Str)
    (h : ∀ c ∈ l, c.isWhitespace = false) : trimStr l = l := by
  rw [trimStr, dropWhile_eq_self_of_all _ l h,
      dropWhile_eq_self_of_all _ l.reverse (fun c hc => h c (List.mem_reverse.mp hc)),
      List.reverse_reverse]

theorem digitOrPlus_not_ws (c : Char) (h : digitOrPlus c = true) :
    c.isWhitespace = false := by
  cases hw : c.isWhitespace with
  | false => rfl
  | true =>
    have hcases : ((c = ' ' ∨ c = '\t') ∨ c = '\r') ∨ c = '\n' := by
      simpa [Char.isWhitespace] using hw
    rcases hcases with ((rfl | rfl) | rfl) | rfl <;> exact absurd h (by decide)

theorem mem_normalize_digitOrPlus (x : Str) :
    ∀ c ∈ normalize_e164 x, digitOrPlus c = true := by
  intro c hc
  rw [normalize_e164] at hc
  split at hc
  · exact List.of_mem_filter hc
  · split at hc
    · rcases List.mem_cons.mp hc with rfl | hc
      · decide
      · rcases List.mem_cons.mp hc with rfl | hc
        · decide
        · exact List.of_mem_filter hc
    · split at hc
      · rcases List.mem_cons.mp hc with rfl | hc
        · decide
        · exact List.of_mem_filter hc
      · rcases List.mem_cons.mp hc with rfl | hc
        · decide
        · exact List.of_mem_filter hc

theorem normalize_head_plus (x : Str) :
    (normalize_e164 x).head? = some '+' := by
  rw [normalize_e164]
  split
  · assumption
  · split
    · rfl
    · split
      · rfl
      · rfl

theorem normalize_fixed (y : Str) (hall : ∀ c ∈ y, digitOrPlus c = true)
    (hhead : y.head? = some '+') : normalize_e164 y = y := by
  have hws : ∀ c ∈ y, c.isWhitespace = false :=
    fun c hc => digitOrPlus_not_ws c (hall c hc)
  have htrim : trimStr y = y := trimStr_eq_self_of_all y hws
  have hfilter : y.filter digitOrPlus = y :=
    List.filter_eq_self.mpr (fun a ha => by rw [hall a ha])
  rw [normalize_e164]
  simp only [htrim, hfilter]
  rw [if_pos hhead]

/-! ## Claim theorems -/

/-- C1 counterexample: the first AI message is a binary frame whose
first byte is 5, not 0x00, yet the session does NOT transition to
termination: the two bridge pumps are spawned. -/
theorem C1_counterexample :
    (handshakeCheck (WSFirstMsg.binary [5])).pumpsSpawned = true := rfl

/-- C1 (amended): the session terminates before spawning the two bridge
pumps exactly when the first AI message is not a binary frame or is an
empty binary frame; a binary frame whose first byte is non-zero merely
logs the `unexpected_first_message` warning and proceeds to spawn the
pumps. -/
theorem C1_handshake_behavior (msg : WSFirstMsg) :
    ((handshakeCheck msg).pumpsSpawned = true ↔
      ∃ data b, msg = WSFirstMsg.binary data ∧ data.head? = some b) ∧
    ((handshakeCheck msg).warned = true ↔
      ∃ data b, msg = WSFirstMsg.binary data ∧ data.head? = some b ∧ b ≠ 0) := by
  cases msg with
  | nonbinary =>
    constructor
    · constructor
      · intro h; exact absurd h (by simp [handshakeCheck])
      · rintro ⟨data, b, h, -⟩; cases h
    · constructor
      · intro h; exact absurd h (by simp [handshakeCheck])
      · rintro ⟨data, b, h, -, -⟩; cases h
  | binary data =>
    cases data with
    | nil =>
      constructor
      · constructor
        · intro h; exact absurd h (by simp [handshakeCheck])
        · rintro ⟨d, b, hd, hh⟩; cases hd; simp at hh
      · constructor
        · intro h; exact absurd h (by simp [handshakeCheck])
        · rintro ⟨d, b, hd, hh, -⟩; cases hd; simp at hh
    | cons b0 rest =>
      by_cases hb : b0 = 0
      · subst hb
        constructor
        · constructor
          · intro _; exact ⟨0 :: rest, 0, rfl, rfl⟩
          · intro _; rfl
        · constructor
          · intro h; exact absurd h (by simp [handshakeCheck])
          · rintro ⟨d, b, hd, hh, hb0⟩
            cases hd
            simp only [List.head?_cons, Option.some.injEq] at hh
            exact absurd hh.symm hb0
      · constructor
        · constructor
          · intro _; exact ⟨b0 :: rest, b0, rfl, rfl⟩
          · intro _; simp [handshakeCheck, hb]
        · constructor
          · intro _; exact ⟨b0 :: rest, b0, rfl, rfl, hb⟩
          · intro _; simp [handshakeCheck, hb]

/-- C3 counterexample: an unparseable text frame followed by a `start`
envelope: the pump exits with the JSON error and the later frame is
never processed (the stream sid stays unset), contradicting the claim
that the pump drops the frame and continues. -/
theorem C3_counterexample :
    (twilioPump extZ stInit
      [TwilioMsg.text none,
       TwilioMsg.text (some (TwilioEnvelope.start (some ['S'])))]).exit =
      PumpExit.jsonError ∧
    (twilioPump extZ stInit
      [TwilioMsg.text none,
       TwilioMsg.text (some (TwilioEnvelope.start (some ['S'])))]).state.stream_sid =
      none := ⟨rfl, rfl⟩

/-- C3 (amended): a carrier text frame that fails to parse as JSON
raises out of the carrier-to-AI pump: the pump terminates at that frame
with no state change and nothing sent, and no subsequent frame is
processed. -/
theorem C3_json_failure_terminates (ext : BridgeExternals) (st : BridgeState)
    (rest : List TwilioMsg) :
    twilioPump ext st (TwilioMsg.text none :: rest) =
      ⟨st, [], PumpExit.jsonError⟩ := rfl

/-- C5: after every send pass on the carrier-to-AI path the residual
PCM buffer holds strictly fewer than 480 samples, whatever the previous
buffer contents and the incoming chunk. -/
theorem C5_residual_lt_frame (enc : List ℚ → Option (List Nat))
    (buf chunk : List ℚ) :
    (sendPass enc buf chunk).1.length < 480 := by
  have h := drainLoop_residual_lt enc (buf ++ chunk).length (buf ++ chunk) le_rfl
  have h480 : OPUS_FRAME_SAMPLES = 480 := rfl
  rw [sendPass]
  rw [h480] at h
  exact h

/-- C8: resampling with equal source and target rates returns the input
unchanged. -/
theorem C8_resample_identity (soxrFn : List ℚ → Nat → Nat → List ℚ)
    (pcm : List ℚ) (rate : Nat) :
    resample soxrFn pcm rate rate = pcm := by
  simp [resample]

/-- C9: E.164 normalization is idempotent. -/
theorem C9_normalize_idempotent (x : Str) :
    normalize_e164 (normalize_e164 x) = normalize_e164 x :=
  normalize_fixed (normalize_e164 x) (mem_normalize_digitOrPlus x)
    (normalize_head_plus x)

/-- C2 counterexample: with the stream sid still unset (no `start` seen),
a decodable AI audio frame produces an outbound carrier media envelope
carrying a null stream sid, contradicting the claimed suppression. -/
theorem C2_counterexample :
    stInit.stream_sid = none ∧
    (ppPump extZ stInit [PPMsg.binary [1, 7]]).sentToTwilio.length = 1 ∧
    (ppPump extZ stInit [PPMsg.binary [1, 7]]).sentToTwilio.map
      MediaOut.streamSid = [none] := ⟨rfl, rfl, rfl⟩

/-- C4 counterexample: the stream sid is set from a first `start`
envelope and then overwritten by a second `start` envelope, so it is not
immutable once set. -/
theorem C4_counterexample :
    (twilioPump extZ stInit
      [TwilioMsg.text (some (TwilioEnvelope.start (some ['A']))),
       TwilioMsg.text (some (TwilioEnvelope.start (some ['B'])))]).state.stream_sid =
      some ['B'] ∧
    (some ['B'] : Option Str) ≠ some ['A'] := ⟨rfl, by decide⟩

theorem ppPump_payloads_independent_of_sid (ext : BridgeExternals) :
    ∀ (msgs : List PPMsg) (sid₁ sid₂ : Option Str) (buf : List ℚ)
      (tc : TranscriptCapture),
      (ppPump ext ⟨sid₁, buf, tc⟩ msgs).sentToTwilio.map MediaOut.payload =
        (ppPump ext ⟨sid₂, buf, tc⟩ msgs).sentToTwilio.map MediaOut.payload := by
  intro msgs
  induction msgs with
  | nil => intro sid₁ sid₂ buf tc; rfl
  | cons m rest ih =>
    intro sid₁ sid₂ buf tc
    cases m with
    | close => rfl
    | otherType => simpa [ppPump] using ih sid₁ sid₂ buf tc
    | binary data =>
      cases data with
      | nil => simpa [ppPump] using ih sid₁ sid₂ buf tc
      | cons kind payload =>
        by_cases h1 : kind = 1
        · cases hdec : ext.opusDecode payload with
          | some pcm =>
            simp only [ppPump, h1, if_true, hdec, List.map_cons]
            rw [ih sid₁ sid₂ buf tc]
          | none => simpa [ppPump, h1, hdec] using ih sid₁ sid₂ buf tc
        · by_cases h2 : kind = 2
          · simpa [ppPump, h1, h2] using ih sid₁ sid₂ buf _
          · simpa [ppPump, h1, h2] using ih sid₁ sid₂ buf tc

/-- C2 (corrected): before a `start` envelope is seen, inbound carrier
audio is still forwarded to the AI (the carrier-to-AI pump's output does
not depend on the stream sid), but outbound carrier media is NOT
suppressed: the AI-to-carrier pump emits the same media payloads whatever
the stream sid, never changes the sid itself, and stamps every outbound
envelope with the sid current at send time, which is null before any
`start`. -/
theorem C2_no_suppression (ext : BridgeExternals) (sid₁ sid₂ : Option Str)
    (buf : List ℚ) (tc : TranscriptCapture) (msgs : List TwilioMsg)
    (st : BridgeState) (pmsgs : List PPMsg) :
    (twilioPump ext ⟨sid₁, buf, tc⟩ msgs).sentToAI =
      (twilioPump ext ⟨sid₂, buf, tc⟩ msgs).sentToAI ∧
    (ppPump ext ⟨sid₁, buf, tc⟩ pmsgs).sentToTwilio.map MediaOut.payload =
      (ppPump ext ⟨sid₂, buf, tc⟩ pmsgs).sentToTwilio.map MediaOut.payload ∧
    (ppPump ext st pmsgs).state.stream_sid = st.stream_sid ∧
    ∀ out ∈ (ppPump ext st pmsgs).sentToTwilio, out.streamSid = st.stream_sid :=
  ⟨twilioPump_sent_independent_of_sid ext msgs sid₁ sid₂ buf tc,
   ppPump_payloads_independent_of_sid ext pmsgs sid₁ sid₂ buf tc,
   (ppPump_sid_invariant ext pmsgs st).1,
   (ppPump_sid_invariant ext pmsgs st).2⟩

/-- C2 witness: the general statement applied to a concrete call in
which the AI sends one decodable audio frame while the stream sid is
still unset. -/
theorem C2_witness :
    (twilioPump extZ ⟨none, [], TranscriptCapture.init⟩
        [TwilioMsg.text (some TwilioEnvelope.stop)]).sentToAI =
      (twilioPump extZ ⟨some ['S'], [], TranscriptCapture.init⟩
        [TwilioMsg.text (some TwilioEnvelope.stop)]).sentToAI ∧
    (ppPump extZ stInit [PPMsg.binary [1, 7]]).state.stream_sid =
      stInit.stream_sid ∧
    (MediaOut.mk stInit.stream_sid
        (pcm_24k_to_mulaw_8k extZ.soxrFn [0])).streamSid = stInit.stream_sid := by
  obtain ⟨h1, -, h3, h4⟩ :=
    C2_no_suppression extZ none (some ['S']) [] TranscriptCapture.init
      [TwilioMsg.text (some TwilioEnvelope.stop)] stInit [PPMsg.binary [1, 7]]
  refine ⟨h1, h3, h4 _ ?_⟩
  have hsent : (ppPump extZ stInit [PPMsg.binary [1, 7]]).sentToTwilio =
      [MediaOut.mk stInit.stream_sid (pcm_24k_to_mulaw_8k extZ.soxrFn [0])] := rfl
  rw [hsent]
  exact List.mem_singleton.mpr rfl

/-- C4 (amended): only `start` envelopes write the stream sid: a `start`
overwrites it with the sid it carries (so a later `start` changes it),
while any run of the carrier-to-AI pump containing no `start` leaves it
untouched; and every outbound media envelope produced by the
AI-to-carrier pump carries the stream sid the bridge held when the
envelope was sent. -/
theorem C4_sid_last_start (ext : BridgeExternals) (st : BridgeState)
    (msgs : List TwilioMsg) (h : ∀ m ∈ msgs, isStart m = false)
    (sid : Option Str) (rest : List TwilioMsg) (st2 : BridgeState)
    (pmsgs : List PPMsg) :
    (twilioPump ext st msgs).state.stream_sid = st.stream_sid ∧
    twilioPump ext st (TwilioMsg.text (some (TwilioEnvelope.start sid)) :: rest) =
      twilioPump ext { st with stream_sid := sid } rest ∧
    ∀ out ∈ (ppPump ext st2 pmsgs).sentToTwilio, out.streamSid = st2.stream_sid :=
  ⟨twilioPump_sid_no_start ext msgs st h, rfl,
   (ppPump_sid_invariant ext pmsgs st2).2⟩

/-- C4 witness: the amended statement applied to a concrete call. -/
theorem C4_witness :
    (twilioPump extZ stInit
        [TwilioMsg.text (some TwilioEnvelope.stop)]).state.stream_sid =
      stInit.stream_sid ∧
    twilioPump extZ stInit
        (TwilioMsg.text (some (TwilioEnvelope.start (some ['S']))) :: []) =
      twilioPump extZ { stInit with stream_sid := some ['S'] } [] ∧
    (MediaOut.mk stInit.stream_sid
        (pcm_24k_to_mulaw_8k extZ.soxrFn [0])).streamSid = stInit.stream_sid := by
  obtain ⟨h1, h2, h3⟩ :=
    C4_sid_last_start extZ stInit [TwilioMsg.text (some TwilioEnvelope.stop)]
      (by intro m hm; rw [List.mem_singleton] at hm; subst hm; rfl)
      (some ['S']) [] stInit [PPMsg.binary [1, 7]]
  refine ⟨h1, h2, h3 _ ?_⟩
  have hsent : (ppPump extZ stInit [PPMsg.binary [1, 7]]).sentToTwilio =
      [MediaOut.mk stInit.stream_sid (pcm_24k_to_mulaw_8k extZ.soxrFn [0])] := rfl
  rw [hsent]
  exact List.mem_singleton.mpr rfl

/-- C6: for every byte sequence, `mulaw_to_pcm` preserves the length,
lands every sample in [-1, 1], and each element is the ITU-T G.711
decode of the corresponding byte as the specification words it. -/
theorem C6_mulaw_decode (data : List Nat) (h : ∀ b ∈ data, b < 256) :
    (mulaw_to_pcm data).length = data.length ∧
    (∀ q ∈ mulaw_to_pcm data, -1 ≤ q ∧ q ≤ 1) ∧
    mulaw_to_pcm data = data.map (fun b => (g711DecodeSpec b : ℚ) / 32768) := by
  refine ⟨by simp [mulaw_to_pcm], ?_, ?_⟩
  · intro q hq
    rw [mulaw_to_pcm, List.mem_map] at hq
    obtain ⟨b, hb, rfl⟩ := hq
    have hbnd := mulawDecodeSample_bounds b (h b hb)
    exact qdiv_bounds hbnd.1 hbnd.2
  · rw [mulaw_to_pcm]
    exact List.map_congr_left
      (fun b hb => by rw [mulawDecodeSample_eq_spec b (h b hb)])

/-- C6 witness: the statement evaluated at the bytes 0, 127, 255. -/
theorem C6_witness :
    (∀ b ∈ ([0, 127, 255] : List Nat), b < 256) ∧
    ((mulaw_to_pcm [0, 127, 255]).length = ([0, 127, 255] : List Nat).length ∧
     (∀ q ∈ mulaw_to_pcm [0, 127, 255], -1 ≤ q ∧ q ≤ 1) ∧
     mulaw_to_pcm [0, 127, 255] =
       ([0, 127, 255] : List Nat).map (fun b => (g711DecodeSpec b : ℚ) / 32768)) :=
  ⟨by decide, C6_mulaw_decode [0, 127, 255] (by decide)⟩

/-- C7: decoding, re-encoding and decoding again reproduces the decoded
samples elementwise within 0.01. -/
theorem C7_roundtrip_tolerance (data : List Nat) (h : ∀ b ∈ data, b < 256) :
    List.Forall₂ (fun x y => |x - y| ≤ (1 : ℚ) / 100)
      (mulaw_to_pcm (pcm_to_mulaw (mulaw_to_pcm data))) (mulaw_to_pcm data) := by
  induction data with
  | nil => exact List.Forall₂.nil
  | cons b rest ih =>
    have hb : b < 256 := h b (List.mem_cons_self _ _)
    have hrest : ∀ x ∈ rest, x < 256 := fun x hx => h x (List.mem_cons_of_mem _ hx)
    have hcons1 : mulaw_to_pcm (pcm_to_mulaw (mulaw_to_pcm (b :: rest))) =
        (mulawDecodeSample (pcmSampleToMulaw ((mulawDecodeSample b : ℚ) / 32768)) : ℚ) / 32768 ::
          mulaw_to_pcm (pcm_to_mulaw (mulaw_to_pcm rest)) := rfl
    have hcons2 : mulaw_to_pcm (b :: rest) =
        (mulawDecodeSample b : ℚ) / 32768 :: mulaw_to_pcm rest := rfl
    rw [hcons1, hcons2]
    refine List.Forall₂.cons ?_ (ih hrest)
    rw [pcmSample_decode b hb]
    have hdiff :
        (mulawDecodeSample (encodeMulawSample
            (Int.tdiv (mulawDecodeSample b * 32767) 32768)) : ℚ) / 32768 -
          (mulawDecodeSample b : ℚ) / 32768 =
        ((mulawDecodeSample (encodeMulawSample
            (Int.tdiv (mulawDecodeSample b * 32767) 32768)) -
            mulawDecodeSample b : ℤ) : ℚ) / 32768 := by push_cast; ring
    rw [hdiff]
    have hint := roundtrip_int_bound b hb
    exact tol_lift hint.1 hint.2

/-- C7 witness: the round-trip statement evaluated at the bytes 255, 128. -/
theorem C7_witness :
    (∀ b ∈ ([255, 128] : List Nat), b < 256) ∧
    List.Forall₂ (fun x y => |x - y| ≤ (1 : ℚ) / 100)
      (mulaw_to_pcm (pcm_to_mulaw (mulaw_to_pcm [255, 128])))
      (mulaw_to_pcm [255, 128]) :=
  ⟨by decide, C7_roundtrip_tolerance [255, 128] (by decide)⟩

theorem turns_invariant_applyOp (st : TranscriptCapture) (op : TCOp)
    (h : ∀ t ∈ st.turns, trimStr t.content = t.content ∧ t.content ≠ []) :
    ∀ t ∈ (applyOp st op).turns, trimStr t.content = t.content ∧ t.content ≠ [] := by
  cases op with
  | addToken s => exact h
  | endTurn =>
    intro t ht
    by_cases h1 : st.assistant_text ≠ []
    · by_cases h2 : trimStr st.assistant_text.flatten ≠ []
      · have hturns : (applyOp st TCOp.endTurn).turns =
            st.turns ++ [⟨Role.assistant, trimStr st.assistant_text.flatten⟩] := by
          simp [applyOp, end_turn, h1, h2]
        rw [hturns] at ht
        rcases List.mem_append.mp ht with ht | ht
        · exact h t ht
        · rw [List.mem_singleton] at ht
          subst ht
          exact ⟨trimStr_trimStr _, h2⟩
      · have hturns : (applyOp st TCOp.endTurn).turns = st.turns := by
          simp [applyOp, end_turn, h1, h2]
        rw [hturns] at ht
        exact h t ht
    · have hturns : (applyOp st TCOp.endTurn).turns = st.turns := by
        simp [applyOp, end_turn, h1]
      rw [hturns] at ht
      exact h t ht
  | addUserNote s =>
    intro t ht
    by_cases h2 : trimStr s ≠ []
    · have hturns : (applyOp st (TCOp.addUserNote s)).turns =
          st.turns ++ [⟨Role.user, trimStr s⟩] := by
        simp [applyOp, add_user_note, h2]
      rw [hturns] at ht
      rcases List.mem_append.mp ht with ht | ht
      · exact h t ht
      · rw [List.mem_singleton] at ht
        subst ht
        exact ⟨trimStr_trimStr _, h2⟩
    · have hturns : (applyOp st (TCOp.addUserNote s)).turns = st.turns := by
        simp [applyOp, add_user_note, h2]
      rw [hturns] at ht
      exact h t ht

theorem turns_invariant_runOps :
    ∀ (ops : List TCOp) (st : TranscriptCapture),
      (∀ t ∈ st.turns, trimStr t.content = t.content ∧ t.content ≠ []) →
      ∀ t ∈ (ops.foldl applyOp st).turns,
        trimStr t.content = t.content ∧ t.content ≠ [] := by
  intro ops
  induction ops with
  | nil => intro st h; exact h
  | cons op rest ih =>
    intro st h
    exact ih _ (turns_invariant_applyOp st op h)

/-- C10: after transcript extraction, every turn produced by any
sequence of `add_token`, `end_turn` and `add_user_note` operations has
whitespace-trimmed, non-empty content. -/
theorem C10_transcript_invariant (ops : List TCOp) :
    ∀ t ∈ get_transcript (runOps ops),
      trimStr t.content = t.content ∧ t.content ≠ [] := by
  intro t ht
  rw [get_transcript] at ht
  have hbase : ∀ t ∈ TranscriptCapture.init.turns,
      trimStr t.content = t.content ∧ t.content ≠ [] := by
    intro t ht
    simp [TranscriptCapture.init] at ht
  have hrun := turns_invariant_runOps ops TranscriptCapture.init hbase
  exact turns_invariant_applyOp (runOps ops) TCOp.endTurn hrun t ht

/-- C10 witness: the invariant evaluated on a run that records one
assistant turn whose raw tokens carry leading whitespace. -/
theorem C10_witness :
    (Turn.mk Role.assistant ['h', 'i'] ∈
      get_transcript (runOps [TCOp.addToken [' ', 'h', 'i'], TCOp.endTurn])) ∧
    (trimStr (Turn.mk Role.assistant ['h', 'i']).content =
        (Turn.mk Role.assistant ['h', 'i']).content ∧
      (Turn.mk Role.assistant ['h', 'i']).content ≠ []) :=
  ⟨by decide,
   C10_transcript_invariant [TCOp.addToken [' ', 'h', 'i'], TCOp.endTurn]
     (Turn.mk Role.assistant ['h', 'i']) (by decide)⟩
